import Mathlib

/-!
Verification of the DRM trust-and-key core (vidwall repository) against its
natural-language specification.

Shallow embedding conventions:
* byte slices are `List Nat`, each element a byte value (the Rust `u8` values);
* `usize`/`u16`/`u32` arithmetic is `Nat` arithmetic (reads assemble byte
  values exactly as `from_be_bytes`/`from_le_bytes` do);
* fallible Rust functions returning `Result` become `Except`;
* a Rust `&mut self` reader method becomes explicit state passing: it returns
  the (possibly advanced) reader next to its `Except` result.
-/

/-- Rust slice indexing `l[a..b]`: the elements at positions `a, ..., b - 1`
(clamped to the list, which the embedded code only uses in bounds). -/
def byteSlice (l : List Nat) (a b : Nat) : List Nat :=
  (l.take b).drop a

/-- Big-endian byte assembly, as `uN::from_be_bytes`. -/
def beNat (l : List Nat) : Nat :=
  l.foldl (fun acc b => acc * 256 + b) 0

/-- Little-endian byte assembly, as `uN::from_le_bytes`. -/
def leNat (l : List Nat) : Nat :=
  l.foldr (fun b acc => acc * 256 + b) 0

/-- Big-endian encoding of `x` on `k` bytes (`u32::to_be_bytes` and friends). -/
def natToBe : Nat → Nat → List Nat
  | 0, _ => []
  | k + 1, x => natToBe k (x / 256) ++ [x % 256]

theorem natToBe_length (k x : Nat) : (natToBe k x).length = k := by
  induction k generalizing x with
  | zero => rfl
  | succ k ih => simp [natToBe, ih]

theorem byteSlice_take_of_le {l : List Nat} {a b m : Nat} (h : b ≤ m) :
    byteSlice (l.take m) a b = byteSlice l a b := by
  simp [byteSlice, List.take_take, Nat.min_eq_left h]

namespace Core

/-- `drm/core/src/reader.rs`: `struct Reader<'a> { data: &'a [u8], pos: usize }`. -/
structure Reader where
  data : List Nat
  pos : Nat
deriving DecidableEq, Repr

/-- `drm/core/src/reader.rs`: `struct ReadError { needed: usize, have: usize }`
(displayed as "unexpected end of data: need {needed} bytes, have {have}"). -/
structure ReadError where
  needed : Nat
  haveLen : Nat  -- the Rust field is `have`, a Lean keyword
deriving DecidableEq, Repr

/-- `Reader::new`. -/
def Reader.new (data : List Nat) : Reader :=
  { data := data, pos := 0 }

/-- `Reader::position`. -/
def Reader.position (r : Reader) : Nat :=
  r.pos

/-- `Reader::remaining`: `self.data.len().saturating_sub(self.pos)`. -/
def Reader.remaining (r : Reader) : Nat :=
  r.data.length - r.pos

/-- `Reader::ensure`: `Err(ReadError { needed: self.pos + n, have: self.data.len() })`
when fewer than `n` bytes remain. It takes `&self` and never moves the position. -/
def Reader.ensure (r : Reader) (n : Nat) : Except ReadError Unit :=
  if r.remaining < n then
    .error { needed := r.pos + n, haveLen := r.data.length }
  else
    .ok ()

/-- `Reader::read_bytes`: `ensure(n)` then return `&data[pos..pos + n]` and
advance. Takes `&mut self`: the reader comes back unchanged on error. -/
def Reader.read_bytes (r : Reader) (n : Nat) : Except ReadError (List Nat) × Reader :=
  match r.ensure n with
  | .error e => (.error e, r)
  | .ok _ => (.ok (byteSlice r.data r.pos (r.pos + n)), { r with pos := r.pos + n })

/-- `Reader::read_array::<N>` (the fixed-size copy of `read_bytes(N)`). -/
def Reader.read_array (r : Reader) (n : Nat) : Except ReadError (List Nat) × Reader :=
  r.read_bytes n

/-- `Reader::read_u16be`. -/
def Reader.read_u16be (r : Reader) : Except ReadError Nat × Reader :=
  match r.read_bytes 2 with
  | (.error e, r₁) => (.error e, r₁)
  | (.ok b, r₁) => (.ok (beNat b), r₁)

/-- `Reader::read_u32be`. -/
def Reader.read_u32be (r : Reader) : Except ReadError Nat × Reader :=
  match r.read_bytes 4 with
  | (.error e, r₁) => (.error e, r₁)
  | (.ok b, r₁) => (.ok (beNat b), r₁)

/-- `Reader::read_u16le`. -/
def Reader.read_u16le (r : Reader) : Except ReadError Nat × Reader :=
  match r.read_bytes 2 with
  | (.error e, r₁) => (.error e, r₁)
  | (.ok b, r₁) => (.ok (leNat b), r₁)

/-- `Reader::read_u32le`. -/
def Reader.read_u32le (r : Reader) : Except ReadError Nat × Reader :=
  match r.read_bytes 4 with
  | (.error e, r₁) => (.error e, r₁)
  | (.ok b, r₁) => (.ok (leNat b), r₁)

/-- The `(raw_len + 3) & !3` alignment of `read_padded_string`, written
arithmetically (`x & !3` clears the two low bits, i.e. `x / 4 * 4`). -/
def alignUp4 (rawLen : Nat) : Nat :=
  (rawLen + 3) / 4 * 4

/-- `Reader::read_padded_string`: read `alignUp4 raw_len` bytes, cut at the
first NUL byte if any, else at `min raw_len aligned`. The Rust function then
decodes the kept bytes with `String::from_utf8_lossy`; the model returns the
kept bytes themselves (on ASCII data the decode is the identity). -/
def Reader.read_padded_string (r : Reader) (rawLen : Nat) :
    Except ReadError (List Nat) × Reader :=
  let aligned := alignUp4 rawLen
  match r.read_bytes aligned with
  | (.error e, r₁) => (.error e, r₁)
  | (.ok bytes, r₁) =>
    let cut :=
      match bytes.findIdx? (fun b => b = 0) with
      | some i => i
      | none => min rawLen aligned
    (.ok (bytes.take cut), r₁)

end Core

theorem Core.ensure_ok_iff_core (r : Core.Reader) (n : Nat) :
    r.ensure n = .ok () ↔ n ≤ r.remaining := by
  unfold Core.Reader.ensure
  split <;> simp <;> omega

/-- C2: `read_bytes(n)` (and `ensure(n)`) fails with the
`UnexpectedEndOfData`-style error `{needed := pos + n, have := data.len}` if
and only if fewer than `n` bytes remain from the current position; on error
the reader is returned unchanged; on success the returned bytes are exactly
`data[pos..pos + n]`, which (for a reader whose position is in bounds, the
only kind the parsers construct) lies entirely inside the underlying slice,
so no read ever touches bytes past its end. -/
theorem claim_C2_reader_bounds (r : Core.Reader) (n : Nat) :
    (r.ensure n = .error { needed := r.pos + n, haveLen := r.data.length } ↔
      r.remaining < n)
    ∧ (r.remaining < n →
        r.read_bytes n = (.error { needed := r.pos + n, haveLen := r.data.length }, r))
    ∧ (n ≤ r.remaining →
        r.read_bytes n =
          (.ok (byteSlice r.data r.pos (r.pos + n)), { r with pos := r.pos + n }))
    ∧ (r.pos ≤ r.data.length → n ≤ r.remaining →
        r.pos + n ≤ r.data.length ∧ (byteSlice r.data r.pos (r.pos + n)).length = n) := by
  refine ⟨?_, ?_, ?_, ?_⟩
  · unfold Core.Reader.ensure
    split <;> simp_all
  · intro h
    have he : r.ensure n = .error { needed := r.pos + n, haveLen := r.data.length } := by
      unfold Core.Reader.ensure
      rw [if_pos h]
    simp [Core.Reader.read_bytes, he]
  · intro h
    have he : r.ensure n = .ok () := by
      unfold Core.Reader.ensure
      rw [if_neg (by omega)]
    simp [Core.Reader.read_bytes, he]
  · intro hp h
    unfold Core.Reader.remaining at h
    constructor
    · omega
    · simp [byteSlice]
      omega

/-- C3: `read_padded_string(raw_len)` consumes exactly `round_up(raw_len, 4)`
bytes — `alignUp4 raw_len` is the least multiple of 4 that is at least
`raw_len` — advancing the position by that amount, and keeps the consumed
bytes truncated at the first NUL or at `min raw_len aligned` (the kept bytes
are then decoded with lossy UTF-8, the identity on ASCII). In particular for
`raw_len = 3` over the four available bytes `[h, i, 0, 0]` it returns `"hi"`
(bytes `[104, 105]`) and leaves the cursor at offset 4, not 3. -/
theorem claim_C3_read_padded_string (r : Core.Reader) (rawLen : Nat) :
    (Core.alignUp4 rawLen % 4 = 0 ∧ rawLen ≤ Core.alignUp4 rawLen ∧ Core.alignUp4 rawLen < rawLen + 4)
    ∧ (Core.alignUp4 rawLen ≤ r.remaining →
        r.read_padded_string rawLen =
          (.ok (let bytes := byteSlice r.data r.pos (r.pos + Core.alignUp4 rawLen)
                bytes.take
                  (match bytes.findIdx? (fun b => b = 0) with
                   | some i => i
                   | none => min rawLen (Core.alignUp4 rawLen))),
           { r with pos := r.pos + Core.alignUp4 rawLen }))
    ∧ Core.Reader.read_padded_string (Core.Reader.new [104, 105, 0, 0]) 3 =
        (.ok [104, 105], { data := [104, 105, 0, 0], pos := 4 }) := by
  refine ⟨⟨?_, ?_, ?_⟩, ?_, ?_⟩
  · unfold Core.alignUp4
    omega
  · unfold Core.alignUp4
    omega
  · unfold Core.alignUp4
    omega
  · intro h
    have he : r.ensure (Core.alignUp4 rawLen) = .ok () := by
      unfold Core.Reader.ensure
      rw [if_neg (by omega)]
    simp [Core.Reader.read_padded_string, Core.Reader.read_bytes, he]
  · rfl

namespace Bcert

/-- `drm/playready-format/src/error.rs`: `enum FormatError`. String payloads
(`expected`, `got`, message strings) are carried as the byte lists they are
built from; `&'static str` kind markers are kept as `String`. -/
inductive FormatError where
  | invalidMagic (expected got : List Nat)
  | unexpectedEof (needed haveLen : Nat)
  | unsupportedVersion (v : Nat)
  | invalidEnumValue (kind : String) (value : Nat)
  | malformed
  | invalidUtf16
  | invalidXml
deriving DecidableEq, Repr

/-- `CHAIN_MAGIC`: the bytes of `b"CHAI"`. -/
def chainMagic : List Nat := [67, 72, 65, 73]

/-- `CERT_MAGIC`: the bytes of `b"CERT"`. -/
def certMagic : List Nat := [67, 69, 82, 84]

/-- `drm/playready-format/src/bcert.rs`: `enum AttributeTag` (`#[repr(u16)]`). -/
inductive AttributeTag where
  | basic
  | domain
  | pc
  | device
  | feature
  | key
  | manufacturer
  | signature
  | silverlight
  | metering
  | extDataSignKey
  | extDataContainer
  | extDataSignature
  | extDataHwid
  | server
  | securityVersion
  | securityVersion2
deriving DecidableEq, Repr

/-- `impl TryFrom<u16> for AttributeTag`. -/
def AttributeTag.tryFrom (value : Nat) : Except FormatError AttributeTag :=
  match value with
  | 0x0001 => .ok .basic
  | 0x0002 => .ok .domain
  | 0x0003 => .ok .pc
  | 0x0004 => .ok .device
  | 0x0005 => .ok .feature
  | 0x0006 => .ok .key
  | 0x0007 => .ok .manufacturer
  | 0x0008 => .ok .signature
  | 0x0009 => .ok .silverlight
  | 0x000A => .ok .metering
  | 0x000B => .ok .extDataSignKey
  | 0x000C => .ok .extDataContainer
  | 0x000D => .ok .extDataSignature
  | 0x000E => .ok .extDataHwid
  | 0x000F => .ok .server
  | 0x0010 => .ok .securityVersion
  | 0x0011 => .ok .securityVersion2
  | _ => .error (.invalidEnumValue "AttributeTag" value)

/-- The private `struct Reader` of `bcert.rs` (same cursor as the core one,
with `FormatError` errors). -/
structure Reader where
  data : List Nat
  pos : Nat
deriving DecidableEq, Repr

/-- `Reader::new` (bcert). -/
def Reader.new (data : List Nat) : Reader :=
  { data := data, pos := 0 }

/-- `Reader::remaining` (bcert). -/
def Reader.remaining (r : Reader) : Nat :=
  r.data.length - r.pos

/-- `Reader::ensure` (bcert): fails with `FormatError::UnexpectedEof`. -/
def Reader.ensure (r : Reader) (n : Nat) : Except FormatError Unit :=
  if r.remaining < n then
    .error (.unexpectedEof (r.pos + n) r.data.length)
  else
    .ok ()

/-- `Reader::read_bytes` (bcert). Sequencing drops the failed reader, so the
success value carries the advanced reader. -/
def Reader.read_bytes (r : Reader) (n : Nat) : Except FormatError (List Nat × Reader) := do
  let _ ← r.ensure n
  .ok (byteSlice r.data r.pos (r.pos + n), { r with pos := r.pos + n })

/-- `Reader::read_u16be` (bcert). -/
def Reader.read_u16be (r : Reader) : Except FormatError (Nat × Reader) := do
  let (b, r₁) ← r.read_bytes 2
  .ok (beNat b, r₁)

/-- `Reader::read_u32be` (bcert). -/
def Reader.read_u32be (r : Reader) : Except FormatError (Nat × Reader) := do
  let (b, r₁) ← r.read_bytes 4
  .ok (beNat b, r₁)

/-- `Reader::read_array::<N>` (bcert). -/
def Reader.read_array (r : Reader) (n : Nat) : Except FormatError (List Nat × Reader) :=
  r.read_bytes n

/-- `Reader::read_padded_string` (bcert): identical to the core reader's,
returning the kept bytes (before the lossy UTF-8 decode). -/
def Reader.read_padded_string (r : Reader) (rawLen : Nat) :
    Except FormatError (List Nat × Reader) := do
  let aligned := Core.alignUp4 rawLen
  let (bytes, r₁) ← r.read_bytes aligned
  let cut :=
    match bytes.findIdx? (fun b => b = 0) with
    | some i => i
    | none => min rawLen aligned
  .ok (bytes.take cut, r₁)

/-- `struct BasicInfo`. -/
structure BasicInfo where
  cert_id : List Nat
  security_level : Nat
  flags : Nat
  cert_type : Nat
  public_key_digest : List Nat
  expiration_date : Nat
  client_id : List Nat
deriving DecidableEq, Repr

/-- `struct DomainInfo` (`domain_url` kept as its bytes). -/
structure DomainInfo where
  service_id : List Nat
  account_id : List Nat
  revision_timestamp : Nat
  domain_url : List Nat
deriving DecidableEq, Repr

/-- `struct PcInfo`. -/
structure PcInfo where
  security_version : Nat
deriving DecidableEq, Repr

/-- `struct DeviceInfo`. -/
structure DeviceInfo where
  max_license : Nat
  max_header : Nat
  max_chain_depth : Nat
deriving DecidableEq, Repr

/-- `struct FeatureInfo`. -/
structure FeatureInfo where
  features : List Nat
deriving DecidableEq, Repr

/-- `struct CertKey`. -/
structure CertKey where
  key_type : Nat
  key : List Nat
  flags : Nat
  usages : List Nat
deriving DecidableEq, Repr

/-- `struct KeyInfo`. -/
structure KeyInfo where
  keys : List CertKey
deriving DecidableEq, Repr

/-- `struct ManufacturerInfo` (strings kept as bytes). -/
structure ManufacturerInfo where
  flags : Nat
  name : List Nat
  model_name : List Nat
  model_number : List Nat
deriving DecidableEq, Repr

/-- `struct SignatureInfo`. -/
structure SignatureInfo where
  signature_type : Nat
  signature : List Nat
  signing_key : List Nat
deriving DecidableEq, Repr

/-- `struct SilverlightInfo`. -/
structure SilverlightInfo where
  security_version : Nat
  platform_identifier : Nat
deriving DecidableEq, Repr

/-- `struct MeteringInfo`. -/
structure MeteringInfo where
  metering_id : List Nat
  metering_url : List Nat
deriving DecidableEq, Repr

/-- `struct ExtDataSignKeyInfo`. -/
structure ExtDataSignKeyInfo where
  key_type : Nat
  flags : Nat
  key : List Nat
deriving DecidableEq, Repr

/-- `struct ServerInfo`. -/
structure ServerInfo where
  warning_days : Nat
deriving DecidableEq, Repr

/-- `struct SecurityVersionInfo`. -/
structure SecurityVersionInfo where
  security_version : Nat
  platform_identifier : Nat
deriving DecidableEq, Repr

/-- `enum AttributeData`. -/
inductive AttributeData where
  | basic (info : BasicInfo)
  | domain (info : DomainInfo)
  | pc (info : PcInfo)
  | device (info : DeviceInfo)
  | feature (info : FeatureInfo)
  | key (info : KeyInfo)
  | manufacturer (info : ManufacturerInfo)
  | signature (info : SignatureInfo)
  | silverlight (info : SilverlightInfo)
  | metering (info : MeteringInfo)
  | extDataSignKey (info : ExtDataSignKeyInfo)
  | server (info : ServerInfo)
  | securityVersion (info : SecurityVersionInfo)
  | unknown (raw : List Nat)
deriving DecidableEq, Repr

/-- `struct BCertAttribute`. -/
structure BCertAttribute where
  flags : Nat
  tag : Nat
  data : AttributeData
deriving DecidableEq, Repr

/-- `struct BCert` (`raw` holds this certificate's own bytes). -/
structure BCert where
  version : Nat
  total_length : Nat
  certificate_length : Nat
  attributes : List BCertAttribute
  raw : List Nat
deriving DecidableEq, Repr

/-- `struct BCertChain`. -/
structure BCertChain where
  version : Nat
  flags : Nat
  certificates : List BCert
deriving DecidableEq, Repr

end Bcert

namespace Bcert

/-- `parse_basic`. -/
def parse_basic (data : List Nat) : Except FormatError AttributeData := do
  let r := Reader.new data
  let (cert_id, r) ← r.read_array 16
  let (security_level, r) ← r.read_u32be
  let (flags, r) ← r.read_u32be
  let (cert_type, r) ← r.read_u32be
  let (public_key_digest, r) ← r.read_array 32
  let (expiration_date, r) ← r.read_u32be
  let (client_id, _) ← r.read_array 16
  .ok (.basic {
    cert_id := cert_id
    security_level := security_level
    flags := flags
    cert_type := cert_type
    public_key_digest := public_key_digest
    expiration_date := expiration_date
    client_id := client_id })

/-- `parse_domain`. -/
def parse_domain (data : List Nat) : Except FormatError AttributeData := do
  let r := Reader.new data
  let (service_id, r) ← r.read_array 16
  let (account_id, r) ← r.read_array 16
  let (revision_timestamp, r) ← r.read_u32be
  let (url_len, r) ← r.read_u32be
  let (domain_url, _) ← r.read_padded_string url_len
  .ok (.domain {
    service_id := service_id
    account_id := account_id
    revision_timestamp := revision_timestamp
    domain_url := domain_url })

/-- `parse_pc`. -/
def parse_pc (data : List Nat) : Except FormatError AttributeData := do
  let r := Reader.new data
  let (security_version, _) ← r.read_u32be
  .ok (.pc { security_version := security_version })

/-- `parse_device`. -/
def parse_device (data : List Nat) : Except FormatError AttributeData := do
  let r := Reader.new data
  let (max_license, r) ← r.read_u32be
  let (max_header, r) ← r.read_u32be
  let (max_chain_depth, _) ← r.read_u32be
  .ok (.device {
    max_license := max_license
    max_header := max_header
    max_chain_depth := max_chain_depth })

/-- The `for _ in 0..count.min(32)` loop body of `parse_feature`: read `k`
big-endian `u32` feature values in order. -/
def readFeatureValues : Nat → Reader → Except FormatError (List Nat × Reader)
  | 0, r => .ok ([], r)
  | k + 1, r => do
    let (v, r₁) ← r.read_u32be
    let (rest, r₂) ← readFeatureValues k r₁
    .ok (v :: rest, r₂)

/-- `parse_feature`: reads the declared count, then at most
`count.min(32)` feature values. -/
def parse_feature (data : List Nat) : Except FormatError AttributeData := do
  let r := Reader.new data
  let (count, r) ← r.read_u32be
  let (features, _) ← readFeatureValues (min count 32) r
  .ok (.feature { features := features })

/-- The inner `for _ in 0..usages_count` loop of `parse_key`. -/
def readUsageValues : Nat → Reader → Except FormatError (List Nat × Reader)
  | 0, r => .ok ([], r)
  | k + 1, r => do
    let (v, r₁) ← r.read_u32be
    let (rest, r₂) ← readUsageValues k r₁
    .ok (v :: rest, r₂)

/-- The outer `for _ in 0..key_count` loop of `parse_key`. -/
def readCertKeys : Nat → Reader → Except FormatError (List CertKey × Reader)
  | 0, r => .ok ([], r)
  | k + 1, r => do
    let (key_type, r) ← r.read_u16be
    let (key_length_bits, r) ← r.read_u16be
    let key_length_bytes := key_length_bits / 8
    let (flags, r) ← r.read_u32be
    let (key, r) ← r.read_bytes key_length_bytes
    let (usages_count, r) ← r.read_u32be
    let (usages, r) ← readUsageValues usages_count r
    let (rest, r₁) ← readCertKeys k r
    .ok ({ key_type := key_type, key := key, flags := flags, usages := usages } :: rest, r₁)

/-- `parse_key`. -/
def parse_key (data : List Nat) : Except FormatError AttributeData := do
  let r := Reader.new data
  let (key_count, r) ← r.read_u32be
  let (keys, _) ← readCertKeys key_count r
  .ok (.key { keys := keys })

/-- `parse_manufacturer`. -/
def parse_manufacturer (data : List Nat) : Except FormatError AttributeData := do
  let r := Reader.new data
  let (flags, r) ← r.read_u32be
  let (name_len, r) ← r.read_u32be
  let (name, r) ← r.read_padded_string name_len
  let (model_name_len, r) ← r.read_u32be
  let (model_name, r) ← r.read_padded_string model_name_len
  let (model_number_len, r) ← r.read_u32be
  let (model_number, _) ← r.read_padded_string model_number_len
  .ok (.manufacturer {
    flags := flags
    name := name
    model_name := model_name
    model_number := model_number })

/-- `parse_signature`. -/
def parse_signature (data : List Nat) : Except FormatError AttributeData := do
  let r := Reader.new data
  let (signature_type, r) ← r.read_u16be
  let (signature_size, r) ← r.read_u16be
  let (signature, r) ← r.read_bytes signature_size
  let (signing_key_size_bits, r) ← r.read_u32be
  let signing_key_size_bytes := signing_key_size_bits / 8
  let (signing_key, _) ← r.read_bytes signing_key_size_bytes
  .ok (.signature {
    signature_type := signature_type
    signature := signature
    signing_key := signing_key })

/-- `parse_silverlight`. -/
def parse_silverlight (data : List Nat) : Except FormatError AttributeData := do
  let r := Reader.new data
  let (security_version, r) ← r.read_u32be
  let (platform_identifier, _) ← r.read_u32be
  .ok (.silverlight {
    security_version := security_version
    platform_identifier := platform_identifier })

/-- `parse_metering`. -/
def parse_metering (data : List Nat) : Except FormatError AttributeData := do
  let r := Reader.new data
  let (metering_id, r) ← r.read_array 16
  let (url_len, r) ← r.read_u32be
  let (metering_url, _) ← r.read_padded_string url_len
  .ok (.metering { metering_id := metering_id, metering_url := metering_url })

/-- `parse_ext_data_sign_key`. -/
def parse_ext_data_sign_key (data : List Nat) : Except FormatError AttributeData := do
  let r := Reader.new data
  let (key_type, r) ← r.read_u16be
  let (key_length_bits, r) ← r.read_u16be
  let (flags, r) ← r.read_u32be
  let (key, _) ← r.read_bytes (key_length_bits / 8)
  .ok (.extDataSignKey { key_type := key_type, flags := flags, key := key })

/-- `parse_server`. -/
def parse_server (data : List Nat) : Except FormatError AttributeData := do
  let r := Reader.new data
  let (warning_days, _) ← r.read_u32be
  .ok (.server { warning_days := warning_days })

/-- `parse_security_version`. -/
def parse_security_version (data : List Nat) : Except FormatError AttributeData := do
  let r := Reader.new data
  let (security_version, r) ← r.read_u32be
  let (platform_identifier, _) ← r.read_u32be
  .ok (.securityVersion {
    security_version := security_version
    platform_identifier := platform_identifier })

/-- `BCertAttribute::parse`: reads the `(flags, tag, length)` header (length
includes the 8-byte header, so `length.saturating_sub(8)` payload bytes — the
`Nat` subtraction saturates just like `saturating_sub`), then dispatches on
the tag. `Err` from `TryFrom` (an unrecognized tag) and the container tags
`ExtDataContainer`/`ExtDataSignature`/`ExtDataHwid` fall to the wildcard arm,
which stores the raw payload. -/
def BCertAttribute.parse (r : Reader) : Except FormatError (BCertAttribute × Reader) := do
  let (flags, r) ← r.read_u16be
  let (tag, r) ← r.read_u16be
  let (length, r) ← r.read_u32be
  let data_len := length - 8
  let (data_bytes, r) ← r.read_bytes data_len
  let data ←
    match AttributeTag.tryFrom tag with
    | .ok .basic => parse_basic data_bytes
    | .ok .domain => parse_domain data_bytes
    | .ok .pc => parse_pc data_bytes
    | .ok .device => parse_device data_bytes
    | .ok .feature => parse_feature data_bytes
    | .ok .key => parse_key data_bytes
    | .ok .manufacturer => parse_manufacturer data_bytes
    | .ok .signature => parse_signature data_bytes
    | .ok .silverlight => parse_silverlight data_bytes
    | .ok .metering => parse_metering data_bytes
    | .ok .extDataSignKey => parse_ext_data_sign_key data_bytes
    | .ok .server => parse_server data_bytes
    | .ok .securityVersion => parse_security_version data_bytes
    | .ok .securityVersion2 => parse_security_version data_bytes
    | _ => .ok (.unknown data_bytes)
  .ok ({ flags := flags, tag := tag, data := data }, r)

/-- The `while r.pos < cert_end && r.remaining() >= 8` attribute loop of
`BCert::parse`. `fuel` is a modelling device only: every iteration of the
Rust loop consumes at least the 8-byte attribute header, so with the
`data.len() + 1` fuel `BCert.parse` supplies the zero-fuel case is never
reached. -/
def parseAttributesF : Nat → Reader → Nat → Except FormatError (List BCertAttribute × Reader)
  | 0, r, _ => .ok ([], r)
  | fuel + 1, r, certEnd =>
    if r.pos < certEnd ∧ 8 ≤ r.remaining then do
      let (attr, r₁) ← BCertAttribute.parse r
      let (rest, r₂) ← parseAttributesF fuel r₁ certEnd
      .ok (attr :: rest, r₂)
    else
      .ok ([], r)

/-- `BCert::parse`: magic, version, total length and certificate (signed)
length, then attributes up to `cert_start + total_length`; the raw bytes
`data[cert_start .. cert_start + total_length]` (clamped to the end of the
buffer) are retained and the cursor is placed at the certificate's end. -/
def BCert.parse (r : Reader) : Except FormatError (BCert × Reader) := do
  let cert_start := r.pos
  let (magic, r) ← r.read_bytes 4
  if magic ≠ certMagic then
    throw (.invalidMagic certMagic magic)
  let (version, r) ← r.read_u32be
  let (total_length, r) ← r.read_u32be
  let (certificate_length, r) ← r.read_u32be
  let cert_end := cert_start + total_length
  let (attributes, r) ← parseAttributesF (r.data.length + 1) r cert_end
  let raw_end := cert_start + total_length
  let raw :=
    if raw_end ≤ r.data.length then
      byteSlice r.data cert_start raw_end
    else
      r.data.drop cert_start
  let r₁ : Reader := { r with pos := min cert_end r.data.length }
  .ok ({ version := version
         total_length := total_length
         certificate_length := certificate_length
         attributes := attributes
         raw := raw }, r₁)

/-- The `for _ in 0..cert_count` loop of `BCertChain::from_bytes`. -/
def parseCerts : Nat → Reader → Except FormatError (List BCert × Reader)
  | 0, r => .ok ([], r)
  | k + 1, r => do
    let (cert, r₁) ← BCert.parse r
    let (rest, r₂) ← parseCerts k r₁
    .ok (cert :: rest, r₂)

/-- `BCertChain::from_bytes`. -/
def BCertChain.from_bytes (data : List Nat) : Except FormatError BCertChain := do
  let r := Reader.new data
  let (magic, r) ← r.read_bytes 4
  if magic ≠ chainMagic then
    throw (.invalidMagic chainMagic magic)
  let (version, r) ← r.read_u32be
  let (_total_length, r) ← r.read_u32be
  let (flags, r) ← r.read_u32be
  let (cert_count, r) ← r.read_u32be
  let (certificates, _) ← parseCerts cert_count r
  .ok { version := version, flags := flags, certificates := certificates }

/-- `BCert::signed_bytes`: `&raw[..(certificate_length).min(raw.len())]`. -/
def BCert.signed_bytes (c : BCert) : List Nat :=
  c.raw.take (min c.certificate_length c.raw.length)

end Bcert

theorem exceptBindOk {ε α β : Type} (a : α) (f : α → Except ε β) :
    (Except.ok a >>= f : Except ε β) = f a := rfl

theorem exceptBindErr {ε α β : Type} (e : ε) (f : α → Except ε β) :
    (Except.error e >>= f : Except ε β) = .error e := rfl

namespace Bcert

theorem Reader.ensure_ok_iff_bcert (r : Reader) (n : Nat) :
    r.ensure n = .ok () ↔ n ≤ r.remaining := by
  unfold Reader.ensure
  split <;> simp <;> omega

theorem Reader.read_bytes_run (r : Reader) (n : Nat) (h : n ≤ r.remaining) :
    r.read_bytes n =
      .ok (byteSlice r.data r.pos (r.pos + n), { data := r.data, pos := r.pos + n }) := by
  have he : r.ensure n = .ok () := (Reader.ensure_ok_iff_bcert r n).mpr h
  unfold Reader.read_bytes
  rw [he, exceptBindOk]

theorem Reader.read_bytes_ok {r r₁ : Reader} {n : Nat} {b : List Nat}
    (h : r.read_bytes n = .ok (b, r₁)) :
    r₁ = { data := r.data, pos := r.pos + n }
      ∧ b = byteSlice r.data r.pos (r.pos + n) ∧ n ≤ r.remaining := by
  by_cases hn : n ≤ r.remaining
  · rw [Reader.read_bytes_run r n hn] at h
    cases h
    exact ⟨rfl, rfl, hn⟩
  · have he : r.ensure n = .error (.unexpectedEof (r.pos + n) r.data.length) := by
      unfold Reader.ensure
      rw [if_pos (by omega)]
    unfold Reader.read_bytes at h
    rw [he, exceptBindErr] at h
    cases h

theorem Reader.read_u16be_ok {r r₁ : Reader} {v : Nat}
    (h : r.read_u16be = .ok (v, r₁)) :
    r₁ = { data := r.data, pos := r.pos + 2 }
      ∧ v = beNat (byteSlice r.data r.pos (r.pos + 2)) ∧ 2 ≤ r.remaining := by
  unfold Reader.read_u16be at h
  cases hb : r.read_bytes 2 with
  | error e =>
    rw [hb, exceptBindErr] at h
    cases h
  | ok p =>
    obtain ⟨b, r₂⟩ := p
    rw [hb, exceptBindOk] at h
    obtain ⟨hr, he, hn⟩ := Reader.read_bytes_ok hb
    cases h
    exact ⟨hr, by rw [he], hn⟩

theorem Reader.read_u32be_ok {r r₁ : Reader} {v : Nat}
    (h : r.read_u32be = .ok (v, r₁)) :
    r₁ = { data := r.data, pos := r.pos + 4 }
      ∧ v = beNat (byteSlice r.data r.pos (r.pos + 4)) ∧ 4 ≤ r.remaining := by
  unfold Reader.read_u32be at h
  cases hb : r.read_bytes 4 with
  | error e =>
    rw [hb, exceptBindErr] at h
    cases h
  | ok p =>
    obtain ⟨b, r₂⟩ := p
    rw [hb, exceptBindOk] at h
    obtain ⟨hr, he, hn⟩ := Reader.read_bytes_ok hb
    cases h
    exact ⟨hr, by rw [he], hn⟩

theorem Reader.read_padded_string_ok {r r₁ : Reader} {rawLen : Nat} {s : List Nat}
    (h : r.read_padded_string rawLen = .ok (s, r₁)) :
    r₁ = { data := r.data, pos := r.pos + Core.alignUp4 rawLen } := by
  unfold Reader.read_padded_string at h
  cases hb : r.read_bytes (Core.alignUp4 rawLen) with
  | error e =>
    simp only [hb, exceptBindErr] at h
    cases h
  | ok p =>
    obtain ⟨b, r₂⟩ := p
    simp only [hb, exceptBindOk] at h
    cases h
    exact (Reader.read_bytes_ok hb).1

theorem Reader.read_array_ok {r r₁ : Reader} {n : Nat} {b : List Nat}
    (h : r.read_array n = .ok (b, r₁)) :
    r₁ = { data := r.data, pos := r.pos + n }
      ∧ b = byteSlice r.data r.pos (r.pos + n) ∧ n ≤ r.remaining :=
  Reader.read_bytes_ok h

end Bcert

namespace Bcert

theorem bindJp {m : Except FormatError AttributeData} {flags tag : Nat}
    {rd r₁ : Reader} {a : BCertAttribute}
    (h : (m >>= fun data =>
        Except.ok ({ flags := flags, tag := tag, data := data }, rd)) = .ok (a, r₁)) :
    r₁ = rd := by
  cases m with
  | error e => simp [exceptBindErr] at h
  | ok d =>
    rw [exceptBindOk] at h
    cases h
    rfl

theorem BCertAttribute.parse_ok {r r₁ : Reader} {a : BCertAttribute}
    (h : BCertAttribute.parse r = .ok (a, r₁)) :
    r₁.data = r.data ∧ r.pos + 8 ≤ r₁.pos := by
  unfold BCertAttribute.parse at h
  cases h₁ : r.read_u16be with
  | error e => simp [h₁, exceptBindErr] at h
  | ok p₁ =>
    obtain ⟨flags, ra⟩ := p₁
    simp only [h₁, exceptBindOk] at h
    cases h₂ : ra.read_u16be with
    | error e => simp [h₂, exceptBindErr] at h
    | ok p₂ =>
      obtain ⟨tag, rb⟩ := p₂
      simp only [h₂, exceptBindOk] at h
      cases h₃ : rb.read_u32be with
      | error e => simp [h₃, exceptBindErr] at h
      | ok p₃ =>
        obtain ⟨length, rc⟩ := p₃
        simp only [h₃, exceptBindOk] at h
        cases h₄ : rc.read_bytes (length - 8) with
        | error e => simp [h₄, exceptBindErr] at h
        | ok p₄ =>
          obtain ⟨data_bytes, rd⟩ := p₄
          simp only [h₄, exceptBindOk] at h
          obtain ⟨hra, -, -⟩ := Reader.read_u16be_ok h₁
          obtain ⟨hrb, -, -⟩ := Reader.read_u16be_ok h₂
          obtain ⟨hrc, -, -⟩ := Reader.read_u32be_ok h₃
          obtain ⟨hrd, -, -⟩ := Reader.read_bytes_ok h₄
          have hd : rd.data = r.data := by
            rw [hrd, hrc, hrb, hra]
          have hp : r.pos + 8 ≤ rd.pos := by
            rw [hrd, hrc, hrb, hra]
            show r.pos + 8 ≤ r.pos + 2 + 2 + 4 + (length - 8)
            omega
          cases h₅ : AttributeTag.tryFrom tag with
          | error e =>
            simp only [h₅] at h
            cases h
            exact ⟨hd, hp⟩
          | ok t =>
            cases t <;> simp only [h₅] at h <;>
              first
                | (have hr := bindJp h
                   rw [hr]
                   exact ⟨hd, hp⟩)
                | (cases h; exact ⟨hd, hp⟩)

/-- Once the cursor is at or past the certificate's declared end offset, the
attribute loop consumes nothing more and succeeds. -/
theorem parseAttributesF_stop (fuel : Nat) (r : Reader) (certEnd : Nat)
    (h : certEnd ≤ r.pos) :
    parseAttributesF fuel r certEnd = .ok ([], r) := by
  cases fuel with
  | zero => rfl
  | succ fuel =>
    unfold parseAttributesF
    rw [if_neg]
    intro hc
    omega

theorem parseAttributesF_ok (fuel : Nat) :
    ∀ {r r₂ : Reader} {attrs : List BCertAttribute} {certEnd : Nat},
    parseAttributesF fuel r certEnd = .ok (attrs, r₂) →
      r₂.data = r.data ∧ r.pos ≤ r₂.pos := by
  induction fuel with
  | zero =>
    intro r r₂ attrs certEnd h
    unfold parseAttributesF at h
    cases h
    exact ⟨rfl, le_refl _⟩
  | succ fuel ih =>
    intro r r₂ attrs certEnd h
    unfold parseAttributesF at h
    by_cases hc : r.pos < certEnd ∧ 8 ≤ r.remaining
    · rw [if_pos hc] at h
      cases h₁ : BCertAttribute.parse r with
      | error e => simp [h₁, exceptBindErr] at h
      | ok p₁ =>
        obtain ⟨attr, ra⟩ := p₁
        simp only [h₁, exceptBindOk] at h
        cases h₂ : parseAttributesF fuel ra certEnd with
        | error e => simp [h₂, exceptBindErr] at h
        | ok p₂ =>
          obtain ⟨rest, rb⟩ := p₂
          simp only [h₂, exceptBindOk] at h
          cases h
          obtain ⟨hda, hpa⟩ := BCertAttribute.parse_ok h₁
          obtain ⟨hdb, hpb⟩ := ih h₂
          exact ⟨by rw [hdb, hda], by omega⟩
    · rw [if_neg hc] at h
      cases h
      exact ⟨rfl, le_refl _⟩

end Bcert

theorem byteSlice_min_right (l : List Nat) (a b : Nat) :
    (if b ≤ l.length then byteSlice l a b else l.drop a) =
      byteSlice l a (min b l.length) := by
  by_cases hb : b ≤ l.length
  · rw [if_pos hb, Nat.min_eq_left hb]
  · rw [if_neg hb, Nat.min_eq_right (by omega)]
    simp [byteSlice]

/-- C5: a successfully parsed certificate stops consuming attributes at its
declared end offset (once the cursor reaches `start + total_length`, the
attribute loop adds nothing and reports no error, whatever fuel it is run
with), the reader is left exactly at `min (start + total_length)
(end_of_buffer)` — trailing bytes inside the boundary are skipped, not an
error — and the certificate retains exactly the raw byte range
`[start, min (start + total_length, end_of_buffer))`. -/
theorem claim_C5_cert_boundary (r r₁ : Bcert.Reader) (cert : Bcert.BCert)
    (h : Bcert.BCert.parse r = .ok (cert, r₁)) :
    cert.raw = byteSlice r.data r.pos (min (r.pos + cert.total_length) r.data.length)
    ∧ r₁.data = r.data
    ∧ r₁.pos = min (r.pos + cert.total_length) r.data.length
    ∧ (∀ fuel (r₂ : Bcert.Reader) certEnd, certEnd ≤ r₂.pos →
        Bcert.parseAttributesF fuel r₂ certEnd = .ok ([], r₂)) := by
  unfold Bcert.BCert.parse at h
  cases h₀ : r.read_bytes 4 with
  | error e => simp [h₀, exceptBindErr] at h
  | ok p₀ =>
    obtain ⟨magic, r₂⟩ := p₀
    simp only [h₀, exceptBindOk] at h
    by_cases hm : magic = Bcert.certMagic
    · rw [if_neg (by simp [hm])] at h
      cases h₁ : r₂.read_u32be with
      | error e => simp [h₁, exceptBindErr] at h
      | ok p₁ =>
        obtain ⟨version, r₃⟩ := p₁
        simp only [h₁, exceptBindOk] at h
        cases h₂ : r₃.read_u32be with
        | error e => simp [h₂, exceptBindErr] at h
        | ok p₂ =>
          obtain ⟨total_length, r₄⟩ := p₂
          simp only [h₂, exceptBindOk] at h
          cases h₃ : r₄.read_u32be with
          | error e => simp [h₃, exceptBindErr] at h
          | ok p₃ =>
            obtain ⟨certificate_length, r₅⟩ := p₃
            simp only [h₃, exceptBindOk] at h
            cases h₄ : Bcert.parseAttributesF (r₅.data.length + 1) r₅ (r.pos + total_length) with
            | error e => simp [h₄, exceptBindErr] at h
            | ok p₄ =>
              obtain ⟨attrs, r₆⟩ := p₄
              simp only [h₄, exceptBindOk] at h
              obtain ⟨h₂d, -, -⟩ := Bcert.Reader.read_bytes_ok h₀
              obtain ⟨h₃d, -, -⟩ := Bcert.Reader.read_u32be_ok h₁
              obtain ⟨h₄d, -, -⟩ := Bcert.Reader.read_u32be_ok h₂
              obtain ⟨h₅d, -, -⟩ := Bcert.Reader.read_u32be_ok h₃
              obtain ⟨h₆d, -⟩ := Bcert.parseAttributesF_ok _ h₄
              have hdata : r₆.data = r.data := by
                rw [h₆d, h₅d, h₄d, h₃d, h₂d]
              cases h
              refine ⟨?_, ?_, ?_, ?_⟩
              · show (if r.pos + total_length ≤ r₆.data.length then
                    byteSlice r₆.data r.pos (r.pos + total_length)
                  else r₆.data.drop r.pos) = _
                rw [hdata, byteSlice_min_right]
              · exact hdata
              · show min (r.pos + total_length) r₆.data.length = _
                rw [hdata]
              · exact fun fuel r₂ certEnd hle => Bcert.parseAttributesF_stop fuel r₂ certEnd hle
    · rw [if_pos (by simp [hm])] at h
      have hh : (Except.error (Bcert.FormatError.invalidMagic Bcert.certMagic magic) :
          Except Bcert.FormatError (Bcert.BCert × Bcert.Reader)) = Except.ok (cert, r₁) := h
      cases hh

theorem take_min_length (l : List Nat) (n : Nat) :
    l.take (min n l.length) = l.take n := by
  by_cases h : n ≤ l.length
  · rw [Nat.min_eq_left h]
  · rw [Nat.min_eq_right (by omega), List.take_length,
      List.take_of_length_le (by omega)]

theorem byteSlice_length {l : List Nat} {p n : Nat} (h : n ≤ l.length - p) :
    (byteSlice l p (p + n)).length = n := by
  simp [byteSlice]
  omega

/-- The one-certificate chain of the repository's own `parse_basic_chain`
test: a CHAI container holding one CERT whose single attribute is a
BasicInfo record. -/
def testChain : List Nat := [67, 72, 65, 73, 0, 0, 0, 1, 0, 0, 0, 124, 0, 0, 0, 0, 0, 0, 0, 1, 67, 69, 82, 84, 0, 0, 0, 1, 0, 0, 0, 104, 0, 0, 0, 88, 0, 1, 0, 1, 0, 0, 0, 88, 1, 1, 1, 1, 1, 1, 1, 1, 1, 1, 1, 1, 1, 1, 1, 1, 0, 0, 11, 184, 0, 0, 0, 0, 0, 0, 0, 2, 2, 2, 2, 2, 2, 2, 2, 2, 2, 2, 2, 2, 2, 2, 2, 2, 2, 2, 2, 2, 2, 2, 2, 2, 2, 2, 2, 2, 2, 2, 2, 2, 255, 255, 255, 255, 3, 3, 3, 3, 3, 3, 3, 3, 3, 3, 3, 3, 3, 3, 3, 3]

/-- The certificate `BCert.parse` produces from `testChain` at offset 20. -/
def testCert : Bcert.BCert :=
  { version := 1
    total_length := 104
    certificate_length := 88
    attributes := [{ flags := 1, tag := 1, data := Bcert.AttributeData.basic {
        cert_id := [1, 1, 1, 1, 1, 1, 1, 1, 1, 1, 1, 1, 1, 1, 1, 1]
        security_level := 3000
        flags := 0
        cert_type := 2
        public_key_digest := [2, 2, 2, 2, 2, 2, 2, 2, 2, 2, 2, 2, 2, 2, 2, 2, 2, 2, 2, 2, 2, 2, 2, 2, 2, 2, 2, 2, 2, 2, 2, 2]
        expiration_date := 4294967295
        client_id := [3, 3, 3, 3, 3, 3, 3, 3, 3, 3, 3, 3, 3, 3, 3, 3] } }]
    raw := [67, 69, 82, 84, 0, 0, 0, 1, 0, 0, 0, 104, 0, 0, 0, 88, 0, 1, 0, 1, 0, 0, 0, 88, 1, 1, 1, 1, 1, 1, 1, 1, 1, 1, 1, 1, 1, 1, 1, 1, 0, 0, 11, 184, 0, 0, 0, 0, 0, 0, 0, 2, 2, 2, 2, 2, 2, 2, 2, 2, 2, 2, 2, 2, 2, 2, 2, 2, 2, 2, 2, 2, 2, 2, 2, 2, 2, 2, 2, 2, 2, 2, 2, 2, 255, 255, 255, 255, 3, 3, 3, 3, 3, 3, 3, 3, 3, 3, 3, 3, 3, 3, 3, 3] }

/-- Witness for C5: `BCert.parse` on the test chain's certificate (offset 20
of `testChain`) retains raw bytes `[20, min (20 + 104) 124) = [20, 124)` and
leaves the cursor at 124. -/
theorem claim_C5_witness :
    testCert.raw =
      byteSlice testChain 20 (min (20 + testCert.total_length) testChain.length)
    ∧ testChain = testChain
    ∧ (124 : Nat) = min (20 + testCert.total_length) testChain.length
    ∧ (∀ fuel (r₂ : Bcert.Reader) certEnd, certEnd ≤ r₂.pos →
        Bcert.parseAttributesF fuel r₂ certEnd = .ok ([], r₂)) :=
  claim_C5_cert_boundary { data := testChain, pos := 20 }
    { data := testChain, pos := 124 } testCert (by set_option maxRecDepth 100000 in rfl)

/-- C1 (amended): for every parsed certificate, the signed region
`signed_bytes` is the prefix `raw[0..signed_length]` of the retained raw
bytes with the end CLAMPED to `raw.len()` (`take` below clamps the same
way); in the well-formed case `signed_length <= raw.len()` it is exactly the
declared prefix. The bound is enforced by `min`-clamping inside
`signed_bytes`, not asserted: parsing accepts certificates with
`signed_length > raw.len()` (see the counterexample). -/
theorem claim_C1_signed_bytes (data : List Nat) (chain : Bcert.BCertChain)
    (c : Bcert.BCert)
    (_hp : Bcert.BCertChain.from_bytes data = .ok chain)
    (_hc : c ∈ chain.certificates) :
    Bcert.BCert.signed_bytes c = c.raw.take c.certificate_length
    ∧ (Bcert.BCert.signed_bytes c).length = min c.certificate_length c.raw.length
    ∧ (c.certificate_length ≤ c.raw.length →
        (Bcert.BCert.signed_bytes c).length = c.certificate_length) := by
  refine ⟨?_, ?_, ?_⟩
  · unfold Bcert.BCert.signed_bytes
    exact take_min_length c.raw c.certificate_length
  · unfold Bcert.BCert.signed_bytes
    rw [List.length_take]
    omega
  · intro hle
    unfold Bcert.BCert.signed_bytes
    rw [List.length_take]
    omega

/-- Witness for C1: the certificate of `testChain` has `signed_length = 88`
and 104 raw bytes, so its signed region is exactly the 88-byte prefix. -/
theorem claim_C1_witness :
    Bcert.BCert.signed_bytes testCert = testCert.raw.take testCert.certificate_length
    ∧ (Bcert.BCert.signed_bytes testCert).length =
        min testCert.certificate_length testCert.raw.length
    ∧ (testCert.certificate_length ≤ testCert.raw.length →
        (Bcert.BCert.signed_bytes testCert).length = testCert.certificate_length) :=
  claim_C1_signed_bytes testChain
    { version := 1, flags := 0, certificates := [testCert] } testCert
    (by set_option maxRecDepth 100000 in rfl)
    (List.mem_singleton.mpr rfl)

/-- A chain whose sole certificate declares `signed_length = 9999` but whose
whole CERT record is only 16 bytes: it parses successfully. -/
def overlongChain : List Nat := [67, 72, 65, 73, 0, 0, 0, 1, 0, 0, 0, 36, 0, 0, 0, 0, 0, 0, 0, 1, 67, 69, 82, 84, 0, 0, 0, 1, 0, 0, 0, 16, 0, 0, 39, 15]

/-- The certificate parsed from `overlongChain`. -/
def overlongCert : Bcert.BCert :=
  { version := 1
    total_length := 16
    certificate_length := 9999
    attributes := []
    raw := [67, 69, 82, 84, 0, 0, 0, 1, 0, 0, 0, 16, 0, 0, 39, 15] }

/-- Counterexample for C1 as frozen: this 36-byte chain parses successfully
into one certificate whose declared signed length 9999 exceeds its 16 raw
bytes — nothing asserts `signed_length <= raw.len()`; `signed_bytes` silently
clamps and returns all 16 raw bytes. -/
theorem claim_C1_counterexample :
    Bcert.BCertChain.from_bytes overlongChain =
      .ok { version := 1, flags := 0, certificates := [overlongCert] }
    ∧ overlongCert.certificate_length = 9999
    ∧ overlongCert.raw.length = 16
    ∧ overlongCert.raw.length < overlongCert.certificate_length
    ∧ Bcert.BCert.signed_bytes overlongCert = overlongCert.raw :=
  ⟨by set_option maxRecDepth 100000 in rfl, rfl, by rfl, by decide, by rfl⟩

/-- C4: an attribute whose tag is not a recognized `AttributeTag` (its
`TryFrom` conversion fails) parses as one opaque `Unknown` attribute whose
payload is the `length - 8` bytes after the 8-byte TLV header — the
certificate parse is not aborted. The witness instantiates the claim's
concrete scenario: tag `0xFFFD`, declared total length 12, 4 payload bytes. -/
theorem claim_C4_unknown_tag
    (r ra rb rc rd : Bcert.Reader) (flags tag length : Nat) (payload : List Nat)
    (h₁ : r.read_u16be = .ok (flags, ra))
    (h₂ : ra.read_u16be = .ok (tag, rb))
    (h₃ : rb.read_u32be = .ok (length, rc))
    (h₄ : rc.read_bytes (length - 8) = .ok (payload, rd))
    (h₅ : Bcert.AttributeTag.tryFrom tag =
      .error (.invalidEnumValue "AttributeTag" tag)) :
    Bcert.BCertAttribute.parse r =
      .ok ({ flags := flags, tag := tag, data := .unknown payload }, rd)
    ∧ payload.length = length - 8 := by
  constructor
  · unfold Bcert.BCertAttribute.parse
    simp only [h₁, exceptBindOk]
    simp only [h₂, exceptBindOk]
    simp only [h₃, exceptBindOk]
    simp only [h₄, exceptBindOk]
    simp only [h₅]
  · obtain ⟨-, hb, hn⟩ := Bcert.Reader.read_bytes_ok h₄
    rw [hb]
    exact byteSlice_length hn

/-- Witness for C4: the claim's concrete scenario — a TLV with unrecognized
tag `0xFFFD` and declared total length 12 parses as one opaque attribute
holding its 4 payload bytes. -/
theorem claim_C4_witness :
    Bcert.BCertAttribute.parse
        { data := [0, 0, 255, 253, 0, 0, 0, 12, 170, 170, 170, 170], pos := 0 } =
      .ok ({ flags := 0, tag := 65533, data := .unknown [170, 170, 170, 170] },
        { data := [0, 0, 255, 253, 0, 0, 0, 12, 170, 170, 170, 170], pos := 12 })
    ∧ ([170, 170, 170, 170] : List Nat).length = 12 - 8 :=
  claim_C4_unknown_tag
    { data := [0, 0, 255, 253, 0, 0, 0, 12, 170, 170, 170, 170], pos := 0 }
    { data := [0, 0, 255, 253, 0, 0, 0, 12, 170, 170, 170, 170], pos := 2 }
    { data := [0, 0, 255, 253, 0, 0, 0, 12, 170, 170, 170, 170], pos := 4 }
    { data := [0, 0, 255, 253, 0, 0, 0, 12, 170, 170, 170, 170], pos := 8 }
    { data := [0, 0, 255, 253, 0, 0, 0, 12, 170, 170, 170, 170], pos := 12 }
    0 65533 12 [170, 170, 170, 170]
    (by rfl) (by rfl) (by rfl) (by rfl) (by rfl)

theorem byteSlice_cons (x : Nat) (l : List Nat) (a b : Nat) :
    byteSlice (x :: l) (a + 1) (b + 1) = byteSlice l a b := by
  simp [byteSlice]

theorem Bcert.read_u32be_run (r : Bcert.Reader) (h : 4 ≤ r.remaining) :
    r.read_u32be =
      .ok (beNat (byteSlice r.data r.pos (r.pos + 4)),
        { data := r.data, pos := r.pos + 4 }) := by
  unfold Bcert.Reader.read_u32be
  rw [Bcert.Reader.read_bytes_run r 4 h, exceptBindOk]

theorem readFeatureValues_ok (k : Nat) :
    ∀ r : Bcert.Reader, r.pos + 4 * k ≤ r.data.length →
      Bcert.readFeatureValues k r =
        .ok ((List.range k).map
            (fun i => beNat (byteSlice r.data (r.pos + 4 * i) (r.pos + 4 * i + 4))),
          { data := r.data, pos := r.pos + 4 * k }) := by
  induction k with
  | zero =>
    intro r _
    show Except.ok ([], r) = _
    simp
  | succ k ih =>
    intro r hr
    have h4 : 4 ≤ r.remaining := by
      unfold Bcert.Reader.remaining
      omega
    unfold Bcert.readFeatureValues
    rw [Bcert.read_u32be_run r h4, exceptBindOk]
    have ihr := ih { data := r.data, pos := r.pos + 4 } (by simp; omega)
    simp only at ihr
    simp only [ihr, exceptBindOk]
    rw [List.range_succ_eq_map]
    simp only [List.map_cons, List.map_map, Except.ok.injEq, Prod.mk.injEq,
      List.cons.injEq, Bcert.Reader.mk.injEq]
    refine ⟨⟨?_, ?_⟩, trivial, by omega⟩
    · norm_num
    · apply List.map_congr_left
      intro i _
      simp only [Function.comp_apply]
      have e1 : r.pos + 4 + 4 * i = r.pos + 4 * (i + 1) := by omega
      rw [e1]

/-- C10: the Feature attribute decoder caps the entry count at 32. For a
payload declaring `count > 32` (first four bytes, big-endian) over at least
`32 * 4` further bytes, exactly the first 32 `u32` feature values are decoded
and stored, the bytes beyond them are not read (the result depends only on
the first `4 + 128` payload bytes), and the excess declared count is
silently ignored rather than reported as an error. -/
theorem claim_C10_feature_cap (c0 c1 c2 c3 : Nat) (rest : List Nat)
    (hcount : 32 < beNat [c0, c1, c2, c3])
    (hlen : 128 ≤ rest.length) :
    Bcert.parse_feature (c0 :: c1 :: c2 :: c3 :: rest) =
      .ok (.feature { features := (List.range 32).map (fun i => beNat (byteSlice rest (4 * i) (4 * i + 4))) })
    ∧ ((List.range 32).map (fun i => beNat (byteSlice rest (4 * i) (4 * i + 4)))).length = 32 := by
  have e : ∀ j : Nat, byteSlice (c0 :: c1 :: c2 :: c3 :: rest) (j + 4) (j + 8) =
      byteSlice rest j (j + 4) := by
    intro j
    calc byteSlice (c0 :: c1 :: c2 :: c3 :: rest) (j + 4) (j + 8)
        = byteSlice (c1 :: c2 :: c3 :: rest) (j + 3) (j + 7) :=
          byteSlice_cons c0 _ (j + 3) (j + 7)
      _ = byteSlice (c2 :: c3 :: rest) (j + 2) (j + 6) :=
          byteSlice_cons c1 _ (j + 2) (j + 6)
      _ = byteSlice (c3 :: rest) (j + 1) (j + 5) :=
          byteSlice_cons c2 _ (j + 1) (j + 5)
      _ = byteSlice rest j (j + 4) := byteSlice_cons c3 _ j (j + 4)
  constructor
  · unfold Bcert.parse_feature
    have hread : (Bcert.Reader.new (c0 :: c1 :: c2 :: c3 :: rest)).read_u32be =
        .ok (beNat [c0, c1, c2, c3],
          { data := c0 :: c1 :: c2 :: c3 :: rest, pos := 4 }) := by
      rw [Bcert.read_u32be_run _ (by simp [Bcert.Reader.new, Bcert.Reader.remaining])]
      exact rfl
    simp only [hread, exceptBindOk]
    have hmin : min (beNat [c0, c1, c2, c3]) 32 = 32 :=
      Nat.min_eq_right (by omega)
    rw [hmin]
    have hrf := readFeatureValues_ok 32
      { data := c0 :: c1 :: c2 :: c3 :: rest, pos := 4 } (by simp; omega)
    simp only at hrf
    have hfl : (List.range 32).map
          (fun i => beNat (byteSlice (c0 :: c1 :: c2 :: c3 :: rest) (4 + 4 * i) (4 + 4 * i + 4))) =
        (List.range 32).map (fun i => beNat (byteSlice rest (4 * i) (4 * i + 4))) := by
      apply List.map_congr_left
      intro i _
      have e2 : 4 + 4 * i = 4 * i + 4 := by omega
      have e3 : 4 * i + 4 + 4 = 4 * i + 8 := by omega
      rw [e2, e3]
      exact congrArg beNat (e (4 * i))
    rw [hfl] at hrf
    simp only [hrf, exceptBindOk]
  · simp

/-- Witness for C10: a Feature payload declaring 33 entries over 128 value
bytes decodes to exactly 32 stored values, with no error. -/
theorem claim_C10_witness :
    Bcert.parse_feature (0 :: 0 :: 0 :: 33 :: List.replicate 128 7) =
      .ok (.feature { features := (List.range 32).map (fun i => beNat (byteSlice (List.replicate 128 7) (4 * i) (4 * i + 4))) })
    ∧ ((List.range 32).map (fun i => beNat (byteSlice (List.replicate 128 7) (4 * i) (4 * i + 4)))).length = 32 :=
  claim_C10_feature_cap 0 0 0 33 (List.replicate 128 7) (by decide) (by simp)

namespace WrmHeader

/-- `drm/playready-format/src/wrm_header.rs`: `kid_to_uuid` — copy the 16
bytes, reverse `[0..4]`, reverse `[4..6]`, reverse `[6..8]`, keep `[8..16]`. -/
def kid_to_uuid (b : List Nat) : List Nat :=
  (b.take 4).reverse ++ ((b.drop 4).take 2).reverse ++ ((b.drop 6).take 2).reverse ++ b.drop 8

/-- `uuid_to_kid` — "Same operation — reversing is self-inverse". -/
def uuid_to_kid (b : List Nat) : List Nat :=
  kid_to_uuid b

end WrmHeader

theorem list_len_succ {α : Type} {l : List α} {n : Nat} (h : l.length = n + 1) :
    ∃ x t, l = x :: t ∧ t.length = n := by
  cases l with
  | nil => simp at h
  | cons x t => exact ⟨x, t, rfl, by simpa using h⟩

/-- C7: on every 16-byte KID, the byte-order transform reverses the three
sub-ranges bytes 0-3, bytes 4-5 and bytes 6-7 independently, leaves bytes
8-15 untouched, is self-inverse, and `uuid_to_kid` is its exact (two-sided)
inverse. -/
theorem claim_C7_kid_byte_order (b : List Nat) (h : b.length = 16) :
    (WrmHeader.kid_to_uuid b).take 4 = (b.take 4).reverse
    ∧ ((WrmHeader.kid_to_uuid b).drop 4).take 2 = ((b.drop 4).take 2).reverse
    ∧ ((WrmHeader.kid_to_uuid b).drop 6).take 2 = ((b.drop 6).take 2).reverse
    ∧ (WrmHeader.kid_to_uuid b).drop 8 = b.drop 8
    ∧ WrmHeader.kid_to_uuid (WrmHeader.kid_to_uuid b) = b
    ∧ WrmHeader.uuid_to_kid (WrmHeader.kid_to_uuid b) = b
    ∧ WrmHeader.kid_to_uuid (WrmHeader.uuid_to_kid b) = b := by
  obtain ⟨x0, b1, rfl, h1⟩ := list_len_succ h
  obtain ⟨x1, b2, rfl, h2⟩ := list_len_succ h1
  obtain ⟨x2, b3, rfl, h3⟩ := list_len_succ h2
  obtain ⟨x3, b4, rfl, h4⟩ := list_len_succ h3
  obtain ⟨x4, b5, rfl, h5⟩ := list_len_succ h4
  obtain ⟨x5, b6, rfl, h6⟩ := list_len_succ h5
  obtain ⟨x6, b7, rfl, h7⟩ := list_len_succ h6
  obtain ⟨x7, b8, rfl, h8⟩ := list_len_succ h7
  obtain ⟨x8, b9, rfl, h9⟩ := list_len_succ h8
  obtain ⟨x9, b10, rfl, h10⟩ := list_len_succ h9
  obtain ⟨x10, b11, rfl, h11⟩ := list_len_succ h10
  obtain ⟨x11, b12, rfl, h12⟩ := list_len_succ h11
  obtain ⟨x12, b13, rfl, h13⟩ := list_len_succ h12
  obtain ⟨x13, b14, rfl, h14⟩ := list_len_succ h13
  obtain ⟨x14, b15, rfl, h15⟩ := list_len_succ h14
  obtain ⟨x15, b16, rfl, h16⟩ := list_len_succ h15
  obtain rfl : b16 = [] := List.eq_nil_of_length_eq_zero h16
  exact ⟨rfl, rfl, rfl, rfl, rfl, rfl, rfl⟩

/-- Witness for C7 at a concrete KID: `[0, ..., 15]` maps to
`[3, 2, 1, 0, 5, 4, 7, 6, 8, ..., 15]` and back. -/
theorem claim_C7_witness :
    (WrmHeader.kid_to_uuid [0, 1, 2, 3, 4, 5, 6, 7, 8, 9, 10, 11, 12, 13, 14, 15]).take 4 =
      (([0, 1, 2, 3, 4, 5, 6, 7, 8, 9, 10, 11, 12, 13, 14, 15] : List Nat).take 4).reverse
    ∧ ((WrmHeader.kid_to_uuid [0, 1, 2, 3, 4, 5, 6, 7, 8, 9, 10, 11, 12, 13, 14, 15]).drop 4).take 2 =
      ((([0, 1, 2, 3, 4, 5, 6, 7, 8, 9, 10, 11, 12, 13, 14, 15] : List Nat).drop 4).take 2).reverse
    ∧ ((WrmHeader.kid_to_uuid [0, 1, 2, 3, 4, 5, 6, 7, 8, 9, 10, 11, 12, 13, 14, 15]).drop 6).take 2 =
      ((([0, 1, 2, 3, 4, 5, 6, 7, 8, 9, 10, 11, 12, 13, 14, 15] : List Nat).drop 6).take 2).reverse
    ∧ (WrmHeader.kid_to_uuid [0, 1, 2, 3, 4, 5, 6, 7, 8, 9, 10, 11, 12, 13, 14, 15]).drop 8 =
      ([0, 1, 2, 3, 4, 5, 6, 7, 8, 9, 10, 11, 12, 13, 14, 15] : List Nat).drop 8
    ∧ WrmHeader.kid_to_uuid (WrmHeader.kid_to_uuid [0, 1, 2, 3, 4, 5, 6, 7, 8, 9, 10, 11, 12, 13, 14, 15]) =
      [0, 1, 2, 3, 4, 5, 6, 7, 8, 9, 10, 11, 12, 13, 14, 15]
    ∧ WrmHeader.uuid_to_kid (WrmHeader.kid_to_uuid [0, 1, 2, 3, 4, 5, 6, 7, 8, 9, 10, 11, 12, 13, 14, 15]) =
      [0, 1, 2, 3, 4, 5, 6, 7, 8, 9, 10, 11, 12, 13, 14, 15]
    ∧ WrmHeader.kid_to_uuid (WrmHeader.uuid_to_kid [0, 1, 2, 3, 4, 5, 6, 7, 8, 9, 10, 11, 12, 13, 14, 15]) =
      [0, 1, 2, 3, 4, 5, 6, 7, 8, 9, 10, 11, 12, 13, 14, 15] :=
  claim_C7_kid_byte_order [0, 1, 2, 3, 4, 5, 6, 7, 8, 9, 10, 11, 12, 13, 14, 15] (by rfl)

namespace Elgamal

/-!
`drm/playready/src/crypto/elgamal.rs` delegates the elliptic-curve group
arithmetic to the `p256` crate (NIST P-256, the "single 256-bit prime
Weierstrass curve" of the spec). The curve itself is modelled concretely:
affine points over the prime field, `none` standing for the point at
infinity, with the standard chord-and-tangent formulas the crate implements.
-/

/-- The P-256 base field prime. -/
def fieldP : Nat :=
  0xffffffff00000001000000000000000000000000ffffffffffffffffffffffff

/-- The P-256 curve coefficient `a = -3 mod p`. -/
def coeffA : Nat := fieldP - 3

/-- The P-256 curve coefficient `b`. -/
def coeffB : Nat :=
  0x5ac635d8aa3a93e7b3ebbd55769886bc651d06b0cc53b0f63bce3c3e27d2604b

/-- The P-256 group order `n` (the scalar field modulus checked by
`Scalar::from_repr`). -/
def orderN : Nat :=
  0xffffffff00000000ffffffffffffffffbce6faada7179e84f3b9cac2fc632551

/-- Subtraction mod `fieldP` (arguments already reduced). -/
def fsub (x y : Nat) : Nat :=
  (x + (fieldP - y % fieldP)) % fieldP

/-- Modular exponentiation, structurally recursive on a fuel bound (the
binary recursion halves the exponent each step, so any `fuel > log2 e`
suffices; `powMod` passes `e + 1`). -/
def powModAux : Nat → Nat → Nat → Nat → Nat
  | 0, _, _, m => 1 % m
  | fuel + 1, x, e, m =>
    if e = 0 then 1 % m
    else
      let h := powModAux fuel ((x * x) % m) (e / 2) m
      if e % 2 = 1 then (h * x) % m else h

def powMod (x e m : Nat) : Nat :=
  powModAux (e + 1) x e m

/-- Inverse in the base field by Fermat's little theorem. -/
def modInv (x : Nat) : Nat :=
  powMod x (fieldP - 2) fieldP

/-- An affine P-256 point; `none` is the identity (point at infinity),
which has no `X ‖ Y` encoding. -/
def Point : Type := Option (Nat × Nat)

instance : DecidableEq Point := by
  unfold Point
  infer_instance

/-- The affine curve equation `y^2 = x^3 + a*x + b` over the base field. -/
def onCurve (q : Nat × Nat) : Bool :=
  (q.2 * q.2) % fieldP = (q.1 * q.1 * q.1 + coeffA * q.1 + coeffB) % fieldP

/-- Negation: `-(x, y) = (x, p - y)`. -/
def pointNeg : Point → Point
  | none => none
  | some (x, y) => some (x, (fieldP - y % fieldP) % fieldP)

/-- The chord-and-tangent addition law on affine points. -/
def pointAdd : Point → Point → Point
  | none, q => q
  | some q, none => some q
  | some (x1, y1), some (x2, y2) =>
    if x1 = x2 then
      if (y1 + y2) % fieldP = 0 then none
      else
        let l := ((3 * x1 * x1 + coeffA) * modInv ((2 * y1) % fieldP)) % fieldP
        let x3 := fsub (fsub ((l * l) % fieldP) x1) x2
        some (x3, fsub ((l * fsub x1 x3) % fieldP) y1)
    else
      let l := (fsub y2 y1 * modInv (fsub x2 x1)) % fieldP
      let x3 := fsub (fsub ((l * l) % fieldP) x1) x2
      some (x3, fsub ((l * fsub x1 x3) % fieldP) y1)

/-- `P - Q`, as the crate's `ProjectivePoint` subtraction. -/
def pointSub (q r : Point) : Point :=
  pointAdd q (pointNeg r)

/-- Double-and-add scalar multiplication, structurally recursive on fuel
(the scalar halves each step; `scalarMul` passes `k + 1`). -/
def scalarMulAux : Nat → Nat → Point → Point
  | 0, _, _ => none
  | fuel + 1, k, q =>
    if k = 0 then none
    else
      let h := scalarMulAux fuel (k / 2) (pointAdd q q)
      if k % 2 = 1 then pointAdd h q else h

def scalarMul (k : Nat) (q : Point) : Point :=
  scalarMulAux (k + 1) k q

/-- `drm/playready/src/error.rs` `CdmError`, restricted to the variants the
ElGamal paths construct. The Rust `ElGamalDecryptFailed(String)` carries two
distinguishable messages ("ciphertext too short: ..." and "decrypted to
identity point"); the model splits them into two constructors. The several
`EccKeyParse(String)` messages are collapsed into one constructor. -/
inductive CdmError where
  | elGamalDecryptFailedTooShort (haveLen : Nat)
  | elGamalDecryptFailedIdentity
  | eccKeyParse
deriving DecidableEq, Repr

/-- `parse_point`: build the SEC1 uncompressed encoding `0x04 ‖ X ‖ Y` and
decode it; the decode fails unless the input is exactly 64 bytes and
`(X, Y)` is a canonical (coordinates below the field prime) point on the
curve. The identity has no such encoding. -/
def parse_point (xy : List Nat) : Except CdmError (Nat × Nat) :=
  let x := beNat (xy.take 32)
  let y := beNat ((xy.drop 32).take 32)
  if xy.length = 64 ∧ x < fieldP ∧ y < fieldP ∧ onCurve (x, y) then
    .ok (x, y)
  else
    .error .eccKeyParse

/-- `ecc256_decrypt`: reject ciphertexts shorter than 128 bytes; otherwise
parse `C1 = ciphertext[0..64]` and `C2 = ciphertext[64..128]` (trailing bytes
are never touched), parse the private scalar (canonical, i.e. below the
group order), compute `C2 - scalar*C1` and return the X coordinate — unless
that point is the identity, which is the fatal "decrypted to identity
point" error. -/
def ecc256_decrypt (private_key ciphertext : List Nat) : Except CdmError (List Nat) :=
  if ciphertext.length < 128 then
    .error (.elGamalDecryptFailedTooShort ciphertext.length)
  else do
    let point1 ← parse_point (byteSlice ciphertext 0 64)
    let point2 ← parse_point (byteSlice ciphertext 64 128)
    let ct_scalar := beNat private_key
    let scalar ←
      if ct_scalar < orderN then Except.ok ct_scalar
      else Except.error CdmError.eccKeyParse
    let shared := scalarMul scalar (some point1)
    let decrypted := pointSub (some point2) shared
    match decrypted with
    | none => .error .elGamalDecryptFailedIdentity
    | some q => .ok (natToBe 32 q.1)

end Elgamal

/-- C6: `ecc256_decrypt` (a) rejects every ciphertext shorter than 128 bytes
with the length error, before touching any byte; (b) is entirely determined
by the first 128 ciphertext bytes, so trailing data is never read and is not
an error; and (c) whenever the computed point `C2 - scalar*C1` is the
curve's identity, it fails with the fatal "decrypted to identity point"
error instead of returning X-coordinate bytes. -/
theorem claim_C6_elgamal_decrypt (private_key ciphertext : List Nat) :
    (ciphertext.length < 128 →
      Elgamal.ecc256_decrypt private_key ciphertext =
        .error (.elGamalDecryptFailedTooShort ciphertext.length))
    ∧ Elgamal.ecc256_decrypt private_key ciphertext =
        Elgamal.ecc256_decrypt private_key (ciphertext.take 128)
    ∧ (∀ q1 q2 : Nat × Nat,
        128 ≤ ciphertext.length →
        Elgamal.parse_point (byteSlice ciphertext 0 64) = .ok q1 →
        Elgamal.parse_point (byteSlice ciphertext 64 128) = .ok q2 →
        beNat private_key < Elgamal.orderN →
        Elgamal.pointSub (some q2)
          (Elgamal.scalarMul (beNat private_key) (some q1)) = none →
        Elgamal.ecc256_decrypt private_key ciphertext =
          .error .elGamalDecryptFailedIdentity) := by
  refine ⟨?_, ?_, ?_⟩
  · intro h
    unfold Elgamal.ecc256_decrypt
    rw [if_pos h]
  · by_cases h : ciphertext.length < 128
    · rw [List.take_of_length_le (by omega)]
    · unfold Elgamal.ecc256_decrypt
      rw [if_neg h, if_neg (by rw [List.length_take]; omega)]
      rw [byteSlice_take_of_le (by omega : (64 : Nat) ≤ 128)]
      rw [byteSlice_take_of_le (by omega : (128 : Nat) ≤ 128)]
  · intro q1 q2 hlen h1 h2 hs hid
    unfold Elgamal.ecc256_decrypt
    rw [if_neg (by omega)]
    simp only [h1, exceptBindOk, h2]
    simp only [if_pos hs, exceptBindOk]
    simp only [hid]

/-- The big-endian bytes of the P-256 generator's X coordinate. -/
def genXBytes : List Nat := [107, 23, 209, 242, 225, 44, 66, 71, 248, 188, 230, 229, 99, 164, 64, 242, 119, 3, 125, 129, 45, 235, 51, 160, 244, 161, 57, 69, 216, 152, 194, 150]

/-- The big-endian bytes of the P-256 generator's Y coordinate. -/
def genYBytes : List Nat := [79, 227, 66, 226, 254, 26, 127, 155, 142, 231, 235, 74, 124, 15, 158, 22, 43, 206, 51, 87, 107, 49, 94, 206, 203, 182, 64, 104, 55, 191, 81, 245]

/-- Witness for C6 at concrete inputs: with private scalar 1 and ciphertext
`G ‖ G` (so `C2 - 1*C1 = G - G` is the identity) decryption fails with the
identity error, and the empty ciphertext fails with the length error. -/
theorem claim_C6_witness :
    Elgamal.ecc256_decrypt (List.replicate 31 0 ++ [1]) (genXBytes ++ genYBytes ++ genXBytes ++ genYBytes) =
      .error .elGamalDecryptFailedIdentity
    ∧ Elgamal.ecc256_decrypt (List.replicate 31 0 ++ [1]) [] =
      .error (.elGamalDecryptFailedTooShort 0) :=
  ⟨by set_option maxRecDepth 100000 in rfl, by rfl⟩

namespace EGModel

/-!
Group-level model for the ElGamal round trip. The `p256` crate's group of
P-256 points is cyclic of prime order `orderN` (cofactor 1), generated by
`G`; the map `d ↦ d • G` is therefore a group isomorphism from `ZMod orderN`
onto the curve group, and scalars are likewise integers mod `orderN`. This
section models every point by its discrete logarithm with respect to `G`
(the identity is `0`), which is faithful to the group structure the crate
implements; the byte-level wrapper around this algebra is the `Elgamal`
section above. On the curve, two points share an X coordinate exactly when
they are equal or opposite, so the X coordinate of `d • G` is modelled by
the canonical representative of the pair `{d, -d}`.
-/

/-- The generator `G` in discrete-log representation. -/
def gen : ZMod Elgamal.orderN := 1

/-- The X coordinate of `d • G`, modelled as the canonical representative
of `{d, -d}`: `xCoord d = xCoord e` exactly when `e = ±d`, the equational
behavior of the curve's X coordinate. -/
def xCoord (d : ZMod Elgamal.orderN) : Nat :=
  min d.val (Elgamal.orderN - d.val)

/-- `ecc256_encrypt` at the group level, with the ephemeral scalar `k`
explicit (the Rust code draws it from `OsRng`): `C1 = G * k`,
`C2 = message + public_key * k`. -/
def encrypt (pk msg k : ZMod Elgamal.orderN) :
    ZMod Elgamal.orderN × ZMod Elgamal.orderN :=
  (k * gen, msg + pk * k)

/-- `ecc256_decrypt` at the group level: `shared = scalar * C1`,
`decrypted = C2 - shared`; the identity decrypts to the fatal error, any
other point to its X coordinate. -/
def decrypt (sk : ZMod Elgamal.orderN)
    (c : ZMod Elgamal.orderN × ZMod Elgamal.orderN) :
    Except Elgamal.CdmError Nat :=
  let shared := sk * c.1
  let decrypted := c.2 - shared
  if decrypted = 0 then .error .elGamalDecryptFailedIdentity
  else .ok (xCoord decrypted)

end EGModel

/-- C9: the ElGamal round trip. For every keypair `(sk, pk = G * sk)`, every
encodable message point `msg` (the identity has no 64-byte encoding, hence
`msg ≠ 0`) and every ephemeral scalar `k` chosen during encryption, the
decrypted point `C2 - sk*C1` is the message point itself, so the X
coordinate decryption returns equals the X coordinate of the message. -/
theorem claim_C9_elgamal_round_trip (sk k msg : ZMod Elgamal.orderN)
    (hmsg : msg ≠ 0) :
    (EGModel.encrypt (sk * EGModel.gen) msg k).2 -
        sk * (EGModel.encrypt (sk * EGModel.gen) msg k).1 = msg
    ∧ EGModel.decrypt sk (EGModel.encrypt (sk * EGModel.gen) msg k) =
        .ok (EGModel.xCoord msg) := by
  have halg : (EGModel.encrypt (sk * EGModel.gen) msg k).2 -
      sk * (EGModel.encrypt (sk * EGModel.gen) msg k).1 = msg := by
    unfold EGModel.encrypt EGModel.gen
    ring
  refine ⟨halg, ?_⟩
  unfold EGModel.decrypt
  simp only [halg]
  rw [if_neg hmsg]

/-- Witness for C9 at a concrete instance: `sk = 2`, `k = 3`, `msg = 5`. -/
theorem claim_C9_witness :
    (EGModel.encrypt ((2 : ZMod Elgamal.orderN) * EGModel.gen) 5 3).2 -
        2 * (EGModel.encrypt ((2 : ZMod Elgamal.orderN) * EGModel.gen) 5 3).1 = 5
    ∧ EGModel.decrypt 2 (EGModel.encrypt ((2 : ZMod Elgamal.orderN) * EGModel.gen) 5 3) =
        .ok (EGModel.xCoord 5) :=
  claim_C9_elgamal_round_trip 2 3 5 (by decide)


/-!
`drm/playready/src/crypto/signing.rs`: `ecdsa_sha256_sign` wraps the `p256`
crate's `SigningKey::sign`, which hashes the raw message with SHA-256 and
generates its nonce with RFC 6979 (HMAC-SHA256 DRBG) — no RNG is passed or
sampled. The hash, the HMAC, the DRBG and the ECDSA equations are modelled
in full below over the concrete curve of the `Elgamal` section; the model
reproduces the RFC 6979 P-256 test vectors.
-/

namespace Sha256

def rotr (r x : Nat) : Nat :=
  (x / 2 ^ r + x % 2 ^ r * 2 ^ (32 - r)) % 2 ^ 32

def shr (r x : Nat) : Nat := x / 2 ^ r

def add32 (x y : Nat) : Nat := (x + y) % 2 ^ 32

def not32 (x : Nat) : Nat := 2 ^ 32 - 1 - x

def bigSigma0 (x : Nat) : Nat := rotr 2 x ^^^ rotr 13 x ^^^ rotr 22 x
def bigSigma1 (x : Nat) : Nat := rotr 6 x ^^^ rotr 11 x ^^^ rotr 25 x
def smallSigma0 (x : Nat) : Nat := rotr 7 x ^^^ rotr 18 x ^^^ shr 3 x
def smallSigma1 (x : Nat) : Nat := rotr 17 x ^^^ rotr 19 x ^^^ shr 10 x
def ch (x y z : Nat) : Nat := (x &&& y) ^^^ (not32 x &&& z)
def maj (x y z : Nat) : Nat := (x &&& y) ^^^ (x &&& z) ^^^ (y &&& z)

def kConsts : List Nat := [1116352408, 1899447441, 3049323471, 3921009573, 961987163, 1508970993, 2453635748, 2870763221, 3624381080, 310598401, 607225278, 1426881987, 1925078388, 2162078206, 2614888103, 3248222580, 3835390401, 4022224774, 264347078, 604807628, 770255983, 1249150122, 1555081692, 1996064986, 2554220882, 2821834349, 2952996808, 3210313671, 3336571891, 3584528711, 113926993, 338241895, 666307205, 773529912, 1294757372, 1396182291, 1695183700, 1986661051, 2177026350, 2456956037, 2730485921, 2820302411, 3259730800, 3345764771, 3516065817, 3600352804, 4094571909, 275423344, 430227734, 506948616, 659060556, 883997877, 958139571, 1322822218, 1537002063, 1747873779, 1955562222, 2024104815, 2227730452, 2361852424, 2428436474, 2756734187, 3204031479, 3329325298]

def hInit : List Nat := [1779033703, 3144134277, 1013904242, 2773480762, 1359893119, 2600822924, 528734635, 1541459225]

def padMessage (msg : List Nat) : List Nat :=
  msg ++ [128] ++ List.replicate ((119 - msg.length % 64) % 64) 0
    ++ natToBe 8 (msg.length * 8)

def scheduleAux : Nat → List Nat → List Nat
  | 0, ws => ws
  | k + 1, ws =>
    let t := add32
      (add32 (smallSigma1 (ws.getD (ws.length - 2) 0)) (ws.getD (ws.length - 7) 0))
      (add32 (smallSigma0 (ws.getD (ws.length - 15) 0)) (ws.getD (ws.length - 16) 0))
    scheduleAux k (ws ++ [t])

def schedule (w16 : List Nat) : List Nat := scheduleAux 48 w16

def compressRound (st : List Nat) (kw : Nat × Nat) : List Nat :=
  match st with
  | [a, b, c, d, e, f, g, h] =>
    let t1 := add32 h (add32 (bigSigma1 e) (add32 (ch e f g) (add32 kw.1 kw.2)))
    let t2 := add32 (bigSigma0 a) (maj a b c)
    [add32 t1 t2, a, b, c, add32 d t1, e, f, g]
  | other => other

def processBlock (st : List Nat) (block : List Nat) : List Nat :=
  let w16 := (List.range 16).map (fun i => beNat (byteSlice block (4 * i) (4 * i + 4)))
  let ws := schedule w16
  let out := (kConsts.zip ws).foldl compressRound st
  (st.zip out).map (fun q => add32 q.1 q.2)

def processAux : Nat → List Nat → List Nat → List Nat
  | 0, st, _ => st
  | nb + 1, st, bytes => processAux nb (processBlock st (bytes.take 64)) (bytes.drop 64)

def sha256 (msg : List Nat) : List Nat :=
  let padded := padMessage msg
  let st := processAux (padded.length / 64) hInit padded
  st.foldr (fun w acc => natToBe 4 w ++ acc) []

def hmacSha256 (key msg : List Nat) : List Nat :=
  let k0 :=
    if 64 < key.length then sha256 key ++ List.replicate 32 0
    else key ++ List.replicate (64 - key.length) 0
  let ipad := k0.map (fun b => b ^^^ 54)
  let opad := k0.map (fun b => b ^^^ 92)
  sha256 (opad ++ sha256 (ipad ++ msg))

end Sha256

namespace Signing

/-- P-256 generator X. -/
def genX : Nat := 0x6b17d1f2e12c4247f8bce6e563a440f277037d812deb33a0f4a13945d898c296
/-- P-256 generator Y. -/
def genY : Nat := 0x4fe342e2fe1a7f9b8ee7eb4a7c0f9e162bce33576b315ececbb6406837bf51f5

/-- RFC 6979 `int2octets` for a 256-bit group order. -/
def int2octets (x : Nat) : List Nat := natToBe 32 x

/-- The HMAC-DRBG state of RFC 6979 section 3.2. -/
structure DrbgState where
  K : List Nat
  V : List Nat

/-- RFC 6979 section 3.2 steps b-f: seed the DRBG from the private key
octets and `bits2octets(H(m))` (for SHA-256 over this curve,
`bits2int` of the hash reduced mod the order). -/
def rfc6979Init (x h1 : List Nat) : DrbgState :=
  let V0 := List.replicate 32 1
  let K0 := List.replicate 32 0
  let bo := int2octets (beNat h1 % Elgamal.orderN)
  let K1 := Sha256.hmacSha256 K0 (V0 ++ [0] ++ x ++ bo)
  let V1 := Sha256.hmacSha256 K1 V0
  let K2 := Sha256.hmacSha256 K1 (V1 ++ [1] ++ x ++ bo)
  let V2 := Sha256.hmacSha256 K2 V1
  { K := K2, V := V2 }

/-- RFC 6979 section 3.2 step h: produce the next nonce candidate
`bits2int(T)` (one HMAC block suffices as `qlen = hlen = 256`) together
with the state for the retry case. -/
def drbgNext (st : DrbgState) : Nat × DrbgState :=
  let V1 := Sha256.hmacSha256 st.K st.V
  let k := beNat V1
  let K1 := Sha256.hmacSha256 st.K (V1 ++ [0])
  let V2 := Sha256.hmacSha256 K1 V1
  (k, { K := K1, V := V2 })

/-- The ECDSA signing loop: draw nonce candidates until one yields valid
`r` and `s`, then emit the 64-byte `R ‖ S` encoding. The Rust loop is
unbounded (a suitable nonce appears essentially immediately); the fuel and
its exhaustion error are a modelling device only. -/
def ecdsaSignLoop : Nat → DrbgState → Nat → Nat → Except Elgamal.CdmError (List Nat)
  | 0, _, _, _ => .error .eccKeyParse
  | fuel + 1, st, d, z =>
    let kst := drbgNext st
    let k := kst.1
    if k = 0 ∨ Elgamal.orderN ≤ k then ecdsaSignLoop fuel kst.2 d z
    else
      match Elgamal.scalarMul k (some (genX, genY)) with
      | none => ecdsaSignLoop fuel kst.2 d z
      | some q =>
        let r := q.1 % Elgamal.orderN
        if r = 0 then ecdsaSignLoop fuel kst.2 d z
        else
          let kinv := Elgamal.powMod k (Elgamal.orderN - 2) Elgamal.orderN
          let s := kinv * (z + r * d) % Elgamal.orderN
          if s = 0 then ecdsaSignLoop fuel kst.2 d z
          else .ok (natToBe 32 r ++ natToBe 32 s)

/-- `ecdsa_sha256_sign`: reject non-canonical or zero private scalars
(`SigningKey::from_bytes`), then sign `SHA-256(message)` with the RFC 6979
nonce. `entropy` models the process-wide OS randomness available to the
crypto module (`ecc256_encrypt` samples it through `OsRng`); the signing
path never reads it — `SigningKey::sign` takes no RNG. -/
def ecdsa_sha256_sign (private_key message _entropy : List Nat) :
    Except Elgamal.CdmError (List Nat) :=
  let d := beNat private_key
  if d = 0 ∨ Elgamal.orderN ≤ d then .error .eccKeyParse
  else
    let h1 := Sha256.sha256 message
    let z := beNat h1 % Elgamal.orderN
    ecdsaSignLoop 1000 (rfc6979Init (int2octets d) h1) d z

end Signing

theorem ecdsaSignLoop_ok_length :
    ∀ (fuel : Nat) (st : Signing.DrbgState) (d z : Nat) (out : List Nat),
    Signing.ecdsaSignLoop fuel st d z = .ok out → out.length = 64 := by
  intro fuel
  induction fuel with
  | zero =>
    intro st d z out h
    cases h
  | succ fuel ih =>
    intro st d z out h
    unfold Signing.ecdsaSignLoop at h
    generalize Signing.drbgNext st = kst0 at h
    simp only [] at h
    generalize Elgamal.powMod kst0.1 (Elgamal.orderN - 2) Elgamal.orderN = kv at h
    generalize Elgamal.scalarMul kst0.1 (some (Signing.genX, Signing.genY)) = G at h
    split at h
    · exact ih _ _ _ _ h
    · split at h
      · exact ih _ _ _ _ h
      · split at h
        · exact ih _ _ _ _ h
        · split at h
          · exact ih _ _ _ _ h
          · rw [← Except.ok.inj h]
            rw [List.length_append, natToBe_length, natToBe_length]

/-- C8: ECDSA signing is deterministic. The signing path derives its nonce
solely from the key and the message (RFC 6979) and never samples the
ambient randomness, so two calls on identical inputs — whatever the random
state of the process at each call — return the identical result, and every
successful result is a 64-byte `R ‖ S` signature. -/
theorem claim_C8_ecdsa_deterministic (private_key message e1 e2 : List Nat) :
    Signing.ecdsa_sha256_sign private_key message e1 =
      Signing.ecdsa_sha256_sign private_key message e2
    ∧ (∀ out, Signing.ecdsa_sha256_sign private_key message e1 = .ok out →
        out.length = 64) := by
  constructor
  · rfl
  · intro out h
    unfold Signing.ecdsa_sha256_sign at h
    simp only [] at h
    split at h
    · cases h
    · exact ecdsaSignLoop_ok_length _ _ _ _ _ h
